import Mathlib

/-!
Verification of the looper repository's specified core: the actuator
policy evaluator, approval gate, actuator executor, percept queue,
loop orchestrator and iteration ledger, together with the web-client
form logic and the git-commit-guard plugin sensor that are present in
the repository sources.
-/

namespace Looper

/-! Rate-limit periods, from the spec's `per: enum{minute,hour,day,week,month}`
and the web client's `RateLimitPeriod` type. -/

inductive Period
  | minute
  | hour
  | day
  | week
  | month
deriving DecidableEq, Repr

/-- Length of a rate-limit period in seconds. -/
def Period.seconds : Period → Nat
  | .minute => 60
  | .hour => 3600
  | .day => 86400
  | .week => 604800
  | .month => 2592000

/-- Modelled from the spec: rate-limit configuration
`rate_limit: {max: u32>0, per}` attached to an actuator policy;
the core Rust crate holding it is not among the sources. -/
structure RateLimitCfg where
  max : Nat
  per : Period
deriving DecidableEq, Repr

/-- Modelled from the spec: the `Policy` record
`{allowlist XOR denylist, rate_limit optional, require_hitl, sandboxed}`. -/
structure Policy where
  allowlist : Option (List String)
  denylist : Option (List String)
  rate_limit : Option RateLimitCfg
  require_hitl : Bool
  sandboxed : Bool
deriving DecidableEq, Repr

/-- Modelled from the spec: an actuator identity carrying its safety policy. -/
structure Actuator where
  name : String
  policy : Policy
deriving DecidableEq, Repr

/-- Modelled from the spec: an `Action` — a frontier-model recommendation
naming an actuator plus an opaque invocation payload whose underlying
tool/command is matched against allow/deny lists. -/
structure Action where
  actuator_name : String
  tool : String
deriving DecidableEq, Repr

/-- Modelled from the spec: the policy verdict
`Admit | Deny(reason) | Hold(approval_id)`. -/
inductive Verdict
  | Admit
  | Deny (reason : String)
  | Hold (approval_id : Nat)
deriving DecidableEq, Repr

/-- Modelled from the spec: `ApprovalRequest.status ∈ {Pending, Approved, Denied}`. -/
inductive ApprovalStatus
  | Pending
  | Approved
  | Denied
deriving DecidableEq, Repr

/-- Modelled from the spec: an `ApprovalRequest` created when the Policy
Evaluator returns "hold for HITL". -/
structure ApprovalRequest where
  id : Nat
  actionTool : String
  status : ApprovalStatus
  requested_at : Nat
deriving DecidableEq, Repr

/-- Modelled from the spec: `RateLimitWindow` per actuator,
`{window_start, count}`, reset when `now` crosses `window_start + period`. -/
structure RateLimitWindow where
  window_start : Nat
  count : Nat
deriving DecidableEq, Repr

/-- Modelled from the spec: the mutable state touched by policy evaluation —
one `RateLimitWindow` per actuator name, the approval-gate store, and the
monotonic approval-id counter. -/
structure EvalState where
  windows : String → RateLimitWindow
  approvals : List ApprovalRequest
  nextApprovalId : Nat

/-- A fresh evaluation state: every window starts at `start` with count 0. -/
def EvalState.init (start : Nat) : EvalState :=
  { windows := fun _ => ⟨start, 0⟩, approvals := [], nextApprovalId := 0 }

/-- True when an allowlist is configured and the action's tool is not in it
(spec rule 1). -/
def allowlistBlocks (p : Policy) (a : Action) : Bool :=
  match p.allowlist with
  | some l => !(l.contains a.tool)
  | none => false

/-- True when a denylist is configured and the action's tool is in it
(spec rule 2). -/
def denylistBlocks (p : Policy) (a : Action) : Bool :=
  match p.denylist with
  | some l => l.contains a.tool
  | none => false

/-- Modelled from the spec: steps 4 and 5 of `evaluate` — after allow/deny
and rate-limit checks pass, either create an `ApprovalRequest` and return
`Hold(approval_id)` when `require_hitl` is set, or return `Admit`. -/
def finishHitl (act : Actuator) (a : Action) (now : Nat) (st : EvalState) :
    Verdict × EvalState :=
  if act.policy.require_hitl then
    (Verdict.Hold st.nextApprovalId,
      { st with
        approvals := st.approvals ++ [⟨st.nextApprovalId, a.tool, .Pending, now⟩],
        nextApprovalId := st.nextApprovalId + 1 })
  else
    (Verdict.Admit, st)

/-- Modelled from the spec: the pure Policy Evaluator
`evaluate(actuator, action) -> Verdict`, applied in the fixed order
allowlist, denylist, rate-limit check-and-increment, HITL, admit; the
rate-limit window is reset when `now` crosses `window_start + period`,
and no increment occurs on a deny. -/
def evaluate (act : Actuator) (a : Action) (now : Nat) (st : EvalState) :
    Verdict × EvalState :=
  if allowlistBlocks act.policy a then
    (Verdict.Deny "not allowlisted", st)
  else if denylistBlocks act.policy a then
    (Verdict.Deny "denylisted", st)
  else
    match act.policy.rate_limit with
    | none => finishHitl act a now st
    | some rl =>
      let w0 := st.windows act.name
      let w := if w0.window_start + rl.per.seconds ≤ now then ⟨now, 0⟩ else w0
      if rl.max ≤ w.count then
        (Verdict.Deny "rate limit exceeded", st)
      else
        finishHitl act a now
          { st with
            windows := Function.update st.windows act.name ⟨w.window_start, w.count + 1⟩ }

/-- A verdict that lets the action proceed toward execution or a human:
`Admit` or `Hold`. -/
def Verdict.ok : Verdict → Bool
  | .Admit => true
  | .Hold _ => true
  | .Deny _ => false

/-- The `ActionResult` tagged union
`Executed{output} | Denied{reason} | RequiresHitl{approval_id}`, as persisted
per planned action; the web sources in `src/` decode exactly this shape. -/
inductive ActionResult
  | Executed (output : String)
  | Denied (reason : String)
  | RequiresHitl (approval_id : Nat)
deriving DecidableEq, Repr

/-- Modelled from the spec: the Actuator Executor's wrapping of a verdict.
`Admit` dispatches to the actuator implementation (one external call) and
wraps the raw output as `Executed`; `Deny` is wrapped as `Denied{reason}`
without any external call; `Hold` returns `RequiresHitl{approval_id}`
immediately. The second component counts external actuator calls made. -/
def execute (dispatch : Action → String) (a : Action) :
    Verdict → ActionResult × Nat
  | .Admit => (ActionResult.Executed (dispatch a), 1)
  | .Deny reason => (ActionResult.Denied reason, 0)
  | .Hold approval_id => (ActionResult.RequiresHitl approval_id, 0)

/-- Modelled from the spec: one action's trip through the Policy Evaluator
followed by the Actuator Executor. Returns the recorded `ActionResult`, the
number of external actuator calls performed, and the updated state. -/
def submitAction (act : Actuator) (dispatch : Action → String) (a : Action)
    (now : Nat) (st : EvalState) : ActionResult × Nat × EvalState :=
  let v := evaluate act a now st
  let r := execute dispatch a v.1
  (r.1, r.2, v.2)

/-- Status of the approval request with the given id, if present. -/
def statusOf (approvals : List ApprovalRequest) (aid : Nat) :
    Option ApprovalStatus :=
  (approvals.find? (fun r => r.id == aid)).map (fun r => r.status)

/-- Modelled from the spec: out-of-band resolution of an `ApprovalRequest`
by `approve(approval_id)` / `deny(approval_id)`. A request may be resolved
exactly once; resolving an unknown id or an already-resolved request fails
with an explicit error and produces no new store. -/
def resolveApproval (approvals : List ApprovalRequest) (aid : Nat)
    (approve : Bool) : Except String (List ApprovalRequest) :=
  match approvals.find? (fun r => r.id == aid) with
  | none => Except.error "unknown approval id"
  | some r =>
    match r.status with
    | .Pending =>
      Except.ok (approvals.map (fun q =>
        if q.id == aid then
          { q with status := if approve then .Approved else .Denied }
        else q))
    | _ => Except.error "approval already resolved"

/-! Percept queue, modelled from the spec's windowed-buffer contract:
`enqueue` appends, `drain_window` atomically snapshots everything enqueued
before the call and advances the cursor past it. -/

/-- Modelled from the spec: a `Percept` — `sensor_name`, opaque `content`,
`received_at`; never mutated after creation. -/
structure Percept where
  sensor_name : String
  content : String
  received_at : Nat
deriving DecidableEq, Repr

/-- Modelled from the spec: a per-sensor percept queue whose monotonic
window cursor separates "sensed" (before the cursor) from "pending"
percepts. -/
structure PerceptQueue where
  items : List Percept
  cursor : Nat
deriving DecidableEq, Repr

/-- The empty percept queue. -/
def PerceptQueue.empty : PerceptQueue := ⟨[], 0⟩

/-- Modelled from the spec: `enqueue(sensor, percept)` appends a percept to
the pending side of the queue and never moves the cursor. -/
def enqueue (q : PerceptQueue) (p : Percept) : PerceptQueue :=
  { q with items := q.items ++ [p] }

/-- Modelled from the spec: `drain_window(sensor)` snapshots all percepts
enqueued before the call that are not yet sensed, marks them sensed by
advancing the cursor to the end of the buffer, and leaves later arrivals
for the next call. -/
def drain_window (q : PerceptQueue) : List Percept × PerceptQueue :=
  (q.items.drop q.cursor, { q with cursor := q.items.length })

/-- One observable operation against a percept queue: an ingress enqueue or
one iteration's gather-phase drain. -/
inductive QueueOp
  | enq (p : Percept)
  | drain
deriving DecidableEq, Repr

/-- Runs a sequence of queue operations, collecting the window returned by
each `drain_window` call in order. -/
def runQueue (q : PerceptQueue) : List QueueOp → List (List Percept) × PerceptQueue
  | [] => ([], q)
  | QueueOp.enq p :: rest => runQueue (enqueue q p) rest
  | QueueOp.drain :: rest =>
    let d := drain_window q
    let r := runQueue d.2 rest
    (d.1 :: r.1, r.2)

/-- Percepts enqueued by a sequence of queue operations, in order. -/
def enqueuedList (ops : List QueueOp) : List Percept :=
  ops.filterMap (fun op =>
    match op with
    | QueueOp.enq p => some p
    | QueueOp.drain => none)

/-! Loop orchestrator and iteration ledger, modelled from the spec's phase
state machine and the persisted `Iteration` record whose JSON shape the web
sources in `src/` consume. -/

/-- The persisted `Iteration` ledger record: strictly increasing `id`,
`sensed_percepts`, `surprising_percepts`, `planned_actions` and
`action_results` of the same length. -/
structure Iteration where
  id : Nat
  created_at : Nat
  sensed_percepts : List Percept
  surprising_percepts : List Percept
  planned_actions : List Action
  action_results : List ActionResult
deriving DecidableEq, Repr

/-- Modelled from the spec: the orchestrator's own state — the next ledger
id, the append-only ledger, the `frontier_loop_count` observability counter,
and the policy-evaluation state shared with external command handlers. -/
structure LoopState where
  nextIterationId : Nat
  ledger : List Iteration
  frontier_loop_count : Nat
  evalState : EvalState

/-- Modelled from the spec: the `ExecuteActions` phase — each planned
action, sequentially and in the order supplied by the frontier model, is
submitted to the Policy Evaluator and Actuator Executor, and its
`ActionResult` is appended at the same index. -/
def execActions (actOf : String → Actuator) (dispatch : Action → String)
    (now : Nat) : List Action → EvalState → List ActionResult × EvalState
  | [], st => ([], st)
  | a :: rest, st =>
    let r := submitAction (actOf a.actuator_name) dispatch a now st
    let k := execActions actOf dispatch now rest r.2.2
    (r.1 :: k.1, k.2)

/-- Modelled from the spec: one full iteration of the loop state machine
after the gather phase has produced `sensed`. The local model picks the
surprising subset; an empty subset is a terminal early exit to `Idle` with
the frontier model never invoked, `frontier_loop_count` untouched, and no
action planned. Otherwise the frontier model is invoked (counted by the
returned `Nat` and by `frontier_loop_count`) and any planned actions are
executed in order. Every branch persists exactly one new ledger entry. -/
def runIteration (localModel : List Percept → List Percept)
    (frontierModel : List Percept → List Action)
    (actOf : String → Actuator) (dispatch : Action → String) (now : Nat)
    (sensed : List Percept) (st : LoopState) : LoopState × Nat :=
  let surprising := localModel sensed
  if surprising.isEmpty then
    ({ st with
        nextIterationId := st.nextIterationId + 1,
        ledger := st.ledger ++ [⟨st.nextIterationId, now, sensed, [], [], []⟩] },
      0)
  else
    let actions := frontierModel surprising
    let r := execActions actOf dispatch now actions st.evalState
    ({ nextIterationId := st.nextIterationId + 1,
       ledger := st.ledger ++
         [⟨st.nextIterationId, now, sensed, surprising, actions, r.1⟩],
       frontier_loop_count := st.frontier_loop_count + 1,
       evalState := r.2 },
      1)

/-- Modelled from the spec: the command surface's
`list_iterations(after_id, limit)` over the durable ledger keyed by
strictly increasing id. -/
def list_iterations (ledger : List Iteration) (after_id : Nat) (limit : Nat) :
    List Iteration :=
  (ledger.filter (fun it => after_id < it.id)).take limit

/-- Ledger well-formedness maintained by the orchestrator: ids strictly
increase along the ledger, every persisted id is below the next fresh id,
and every entry has one result per planned action. -/
def ledgerInv (st : LoopState) : Prop :=
  st.ledger.Pairwise (fun i j => i.id < j.id) ∧
  (∀ it ∈ st.ledger, it.id < st.nextIterationId) ∧
  (∀ it ∈ st.ledger, it.action_results.length = it.planned_actions.length)

/-! Web-client logic present in `src/looper-web`. -/

/-- JavaScript `Number(x) || d`: a non-numeric field value (NaN, modelled
as `none`) and the falsy number 0 both fall back to the default. -/
def jsNumberOr (v : Option Int) (dflt : Int) : Int :=
  match v with
  | none => dflt
  | some x => if x = 0 then dflt else x

/-- From `ActuatorFormFields.tsx`: the Max Executions input's change
handler, `Math.max(1, Number(event.target.value) || 1)`. -/
def rateLimitMaxInput (raw : Option Int) : Int :=
  max 1 (jsNumberOr raw 1)

/-- From `SensorFormFields.tsx`: the Sensitivity Score input's change
handler, `Math.max(0, Math.min(100, Number(event.target.value) || 0))`. -/
def sensitivityInput (raw : Option Int) : Int :=
  max 0 (min 100 (jsNumberOr raw 0))

/-- A `rate_limit` object as submitted by the web client (JS numbers are
modelled as integers). -/
structure WebRateLimit where
  max : Int
  per : Period
deriving DecidableEq, Repr

/-- From `AddActuatorClient.tsx` `save`: the rate-limit part of creating an
actuator — reject with the on-screen error when a rate limit is enabled
with `rateLimitMax <= 0`, otherwise submit
`rateLimitEnabled ? {max: Math.max(1, rateLimitMax), per} : null`. -/
def createActuatorRateLimit (rateLimitEnabled : Bool) (rateLimitMax : Int)
    (per : Period) : Except String (Option WebRateLimit) :=
  if rateLimitEnabled ∧ rateLimitMax ≤ 0 then
    Except.error "Rate limit max must be greater than 0."
  else
    Except.ok (if rateLimitEnabled then some ⟨max 1 rateLimitMax, per⟩ else none)

/-- From `ActuatorDetailClient.tsx` `save`: the rate-limit part of updating
an actuator, with the same guard and clamp as actuator creation. -/
def updateActuatorRateLimit (rateLimitEnabled : Bool) (rateLimitMax : Int)
    (per : Period) : Except String (Option WebRateLimit) :=
  if rateLimitEnabled ∧ rateLimitMax ≤ 0 then
    Except.error "Rate limit max must be greater than 0."
  else
    Except.ok (if rateLimitEnabled then some ⟨max 1 rateLimitMax, per⟩ else none)

/-- Status shown for a history list item in `ActionHistoryClient`. -/
inductive ItemStatus
  | Done
  | Error
  | Pending
  | Running
deriving DecidableEq, Repr

/-- Kind tag produced by `actionResultDetails` in `ActionHistoryClient`. -/
inductive ResultKind
  | Executed
  | Denied
  | RequiresHitl
  | Pending
deriving DecidableEq, Repr

/-- From `ActionHistoryClient` (`src/unnamed/part_006`): `actionStatus` —
an absent result is `Pending`, `Executed` maps to `Done`, `Denied` to
`Error`, and `RequiresHitl` to `Pending`. -/
def actionStatus : Option ActionResult → ItemStatus
  | none => ItemStatus.Pending
  | some (.Executed _) => ItemStatus.Done
  | some (.Denied _) => ItemStatus.Error
  | some (.RequiresHitl _) => ItemStatus.Pending

/-- From `ActionHistoryClient` (`src/unnamed/part_006`):
`actionResultDetails` — the result kind together with its display
content. -/
def actionResultDetails : Option ActionResult → ResultKind × Option String
  | none => (ResultKind.Pending, none)
  | some (.Executed output) => (ResultKind.Executed, some output)
  | some (.Denied reason) => (ResultKind.Denied, some reason)
  | some (.RequiresHitl approval_id) =>
    (ResultKind.RequiresHitl, some ("Approval ID: " ++ toString approval_id))

/-- One row built by `buildHistoryActions`; the purely presentational
`title`/`timestamp` strings of the source are not modelled. -/
structure HistoryActionItem where
  iterationId : Nat
  index : Nat
  actuatorName : String
  status : ItemStatus
  resultKind : ResultKind
  resultContent : Option String
deriving DecidableEq, Repr

/-- From `ActionHistoryClient` (`src/unnamed/part_006`):
`buildHistoryActions` — for every iteration, one item per planned action
index, pairing the action at that index with `action_results[index]`
(which may be absent). -/
def buildHistoryActions (iterations : List Iteration) : List HistoryActionItem :=
  iterations.flatMap (fun it =>
    it.planned_actions.enum.map (fun pair =>
      let result := it.action_results[pair.1]?
      let details := actionResultDetails result
      { iterationId := it.id,
        index := pair.1,
        actuatorName := pair.2.actuator_name,
        status := actionStatus result,
        resultKind := details.1,
        resultContent := details.2 }))

/-! The git-commit-guard plugin sensor, from the plugin source embedded in
`src/looper-peas/README.md`. -/

/-- From the git-commit-guard plugin `handleSensor`: commit hashes are
modelled as naturals and the repository's `git log` as the list of commit
hashes, newest first; `recentCommits(root, 25)` is the first 25 entries.
The `commitRisk`/`buildRiskSignal` pipeline (which decides whether a fresh
commit yields a percept) is abstracted as the predicate `risky`, and a
percept is identified by the hash of the commit it reports. On the first
invocation (no stored `lastSeenHash`) the newest hash is recorded and no
percept is emitted; afterwards only commits before the stored hash's
position are considered fresh, and the stored hash always advances to the
newest commit. -/
def handleSensor (risky : Nat → Bool) (repo : List Nat)
    (lastSeen : Option Nat) : List Nat × Option Nat :=
  let commits := repo.take 25
  match commits.head? with
  | none => ([], lastSeen)
  | some latest =>
    match lastSeen with
    | none => ([], some latest)
    | some s =>
      let fresh :=
        match commits.findIdx? (fun c => c == s) with
        | some boundary => commits.take boundary
        | none => commits
      (fresh.reverse.filter risky, some latest)

/-! Helper lemmas. -/

/-- The HITL step never touches the rate-limit windows. -/
theorem finishHitl_windows (act : Actuator) (a : Action) (now : Nat)
    (st : EvalState) : (finishHitl act a now st).2.windows = st.windows := by
  unfold finishHitl
  split <;> rfl

/-- The HITL step never returns a denial. -/
theorem finishHitl_not_deny (act : Actuator) (a : Action) (now : Nat)
    (st : EvalState) (r : String) :
    (finishHitl act a now st).1 ≠ Verdict.Deny r := by
  unfold finishHitl
  split <;> simp

/-- Every denying evaluation leaves the evaluation state untouched. -/
theorem evaluate_deny_state (act : Actuator) (a : Action) (now : Nat)
    (st : EvalState) (r : String)
    (h : (evaluate act a now st).1 = Verdict.Deny r) :
    (evaluate act a now st).2 = st := by
  by_cases h1 : allowlistBlocks act.policy a
  · simp [evaluate, h1]
  · by_cases h2 : denylistBlocks act.policy a
    · simp [evaluate, h1, h2]
    · cases hrl : act.policy.rate_limit with
      | none =>
        have h' : (evaluate act a now st).1 = (finishHitl act a now st).1 := by
          simp [evaluate, h1, h2, hrl]
        exact absurd (h'.symm.trans h) (finishHitl_not_deny act a now st r)
      | some rl =>
        by_cases hcnt : rl.max ≤
            (if (st.windows act.name).window_start + rl.per.seconds ≤ now then
              (⟨now, 0⟩ : RateLimitWindow) else st.windows act.name).count
        · simp [evaluate, h1, h2, hrl, hcnt]
        · exfalso
          apply finishHitl_not_deny act a now
            { st with
              windows := Function.update st.windows act.name
                ⟨(if (st.windows act.name).window_start + rl.per.seconds ≤ now then
                    (⟨now, 0⟩ : RateLimitWindow) else st.windows act.name).window_start,
                  (if (st.windows act.name).window_start + rl.per.seconds ≤ now then
                    (⟨now, 0⟩ : RateLimitWindow) else st.windows act.name).count + 1⟩ } r
          rw [← h]
          simp [evaluate, h1, h2, hrl, hcnt]

/-- A rate-limit evaluation that does not reset the window and has room
left admits (or holds) the action and increments only the actuator's own
window count. -/
theorem evaluate_rl_pass (act : Actuator) (rl : RateLimitCfg) (hitl sb : Bool)
    (hpol : act.policy = ⟨none, none, some rl, hitl, sb⟩)
    (a : Action) (now : Nat) (st : EvalState)
    (hreset : ¬ ((st.windows act.name).window_start + rl.per.seconds ≤ now))
    (hcnt : (st.windows act.name).count < rl.max) :
    (evaluate act a now st).1.ok = true ∧
    (evaluate act a now st).2.windows =
      Function.update st.windows act.name
        ⟨(st.windows act.name).window_start, (st.windows act.name).count + 1⟩ := by
  have hcnt' : ¬ rl.max ≤ (st.windows act.name).count := not_le.mpr hcnt
  cases hitl <;>
    simp [evaluate, hpol, allowlistBlocks, denylistBlocks, hreset, hcnt',
      finishHitl, Verdict.ok]

/-- A rate-limit evaluation that does not reset the window and is already
at the maximum denies with the rate-limit reason and changes nothing. -/
theorem evaluate_rl_deny (act : Actuator) (rl : RateLimitCfg) (hitl sb : Bool)
    (hpol : act.policy = ⟨none, none, some rl, hitl, sb⟩)
    (a : Action) (now : Nat) (st : EvalState)
    (hreset : ¬ ((st.windows act.name).window_start + rl.per.seconds ≤ now))
    (hcnt : rl.max ≤ (st.windows act.name).count) :
    evaluate act a now st = (Verdict.Deny "rate limit exceeded", st) := by
  simp [evaluate, hpol, allowlistBlocks, denylistBlocks, hreset, hcnt]

/-- The rate-limit count of an actuator never exceeds its configured
maximum across any single evaluation. -/
theorem evaluate_count_le (act : Actuator) (a : Action) (now : Nat)
    (st : EvalState) (rl : RateLimitCfg)
    (hrl : act.policy.rate_limit = some rl)
    (hle : (st.windows act.name).count ≤ rl.max) :
    ((evaluate act a now st).2.windows act.name).count ≤ rl.max := by
  by_cases h1 : allowlistBlocks act.policy a
  · simp [evaluate, h1, hle]
  · by_cases h2 : denylistBlocks act.policy a
    · simp [evaluate, h1, h2, hle]
    · simp only [evaluate, h1, h2, Bool.false_eq_true, if_false, hrl]
      split
      · split
        · simpa using hle
        · rw [finishHitl_windows]
          simp only [Function.update_same]
          omega
      · split
        · simpa using hle
        · rw [finishHitl_windows]
          simp only [Function.update_same]
          omega

/-- Running a queue-operation sequence splits at list append. -/
theorem runQueue_append (q : PerceptQueue) (xs ys : List QueueOp) :
    runQueue q (xs ++ ys) =
      ((runQueue q xs).1 ++ (runQueue (runQueue q xs).2 ys).1,
        (runQueue (runQueue q xs).2 ys).2) := by
  induction xs generalizing q with
  | nil => simp [runQueue]
  | cons op rest ih =>
    cases op with
    | enq p => simp [runQueue, ih]
    | drain => simp [runQueue, ih]

/-- The queue buffer after a run is the old buffer plus everything
enqueued, in order; drains never remove buffered percepts. -/
theorem runQueue_items (ops : List QueueOp) (q : PerceptQueue) :
    (runQueue q ops).2.items = q.items ++ enqueuedList ops := by
  induction ops generalizing q with
  | nil => simp [runQueue, enqueuedList]
  | cons op rest ih =>
    cases op with
    | enq p => simp [runQueue, enqueuedList, ih, enqueue]
    | drain => simp [runQueue, enqueuedList, ih, drain_window]

/-- A drain-free run produces no windows, appends exactly its enqueued
percepts, and leaves the cursor alone. -/
theorem runQueue_no_drain (ops : List QueueOp) (q : PerceptQueue)
    (h : QueueOp.drain ∉ ops) :
    runQueue q ops = ([], ⟨q.items ++ enqueuedList ops, q.cursor⟩) := by
  induction ops generalizing q with
  | nil => simp [runQueue, enqueuedList]
  | cons op rest ih =>
    cases op with
    | enq p =>
      simp only [List.mem_cons, not_or] at h
      simp [runQueue, enqueuedList, ih _ h.2, enqueue]
    | drain => exact absurd (List.mem_cons_self _ _) h

/-- One window is collected per drain operation. -/
theorem runQueue_length (ops : List QueueOp) (q : PerceptQueue) :
    (runQueue q ops).1.length = ops.count QueueOp.drain := by
  induction ops generalizing q with
  | nil => simp [runQueue]
  | cons op rest ih =>
    cases op with
    | enq p => simp [runQueue, ih, List.count_cons]
    | drain => simp [runQueue, ih, List.count_cons]

/-- Membership in the enqueued-percept list is exactly membership of the
corresponding enqueue operation. -/
theorem mem_enqueuedList (p : Percept) (ops : List QueueOp) :
    p ∈ enqueuedList ops ↔ QueueOp.enq p ∈ ops := by
  simp only [enqueuedList, List.mem_filterMap]
  constructor
  · rintro ⟨op, hop, hf⟩
    cases op with
    | enq q =>
      simp only [Option.some.injEq] at hf
      exact hf ▸ hop
    | drain => simp at hf
  · intro h
    exact ⟨QueueOp.enq p, h, rfl⟩

/-- The demo actuator of the spec's rate-limit test: no allow/deny lists
and a `max=2, per=hour` rate limit. -/
def rlActuator (nm : String) (hitl sb : Bool) : Actuator :=
  ⟨nm, ⟨none, none, some ⟨2, Period.hour⟩, hitl, sb⟩⟩

/-- First of three policy evaluations against `rlActuator`, from a fresh
window starting at `t0`. -/
def rlStep1 (nm : String) (hitl sb : Bool) (a1 : Action) (t0 t1 : Nat) :
    Verdict × EvalState :=
  evaluate (rlActuator nm hitl sb) a1 t1 (EvalState.init t0)

/-- Second of the three evaluations, in the state the first left behind. -/
def rlStep2 (nm : String) (hitl sb : Bool) (a1 a2 : Action) (t0 t1 t2 : Nat) :
    Verdict × EvalState :=
  evaluate (rlActuator nm hitl sb) a2 t2 (rlStep1 nm hitl sb a1 t0 t1).2

/-- Third of the three evaluations, in the state the second left behind. -/
def rlStep3 (nm : String) (hitl sb : Bool) (a1 a2 a3 : Action)
    (t0 t1 t2 t3 : Nat) : Verdict × EvalState :=
  evaluate (rlActuator nm hitl sb) a3 t3 (rlStep2 nm hitl sb a1 a2 t0 t1 t2).2

/-- A JS `findIndex` looking for `s` in a list that starts with an
`s`-free prefix reports exactly the prefix's length. -/
theorem findIdx_boundary (s : Nat) (d t' : List Nat) (hs : s ∉ d) :
    (d ++ s :: t').findIdx? (fun c => c == s) = some d.length := by
  rw [List.findIdx?_append]
  have hd : d.findIdx? (fun c => c == s) = none :=
    List.findIdx?_eq_none_iff.mpr (fun x hx => by
      rw [beq_eq_false_iff_ne]
      exact fun h => hs (h ▸ hx))
  rw [hd]
  simp

/-- The plugin sensor's percepts always come from the 25 most recent
commits it inspected. -/
theorem handleSensor_emit_sub (risky : Nat → Bool) (repo : List Nat)
    (st : Option Nat) :
    ∀ c ∈ (handleSensor risky repo st).1, c ∈ repo.take 25 := by
  intro c hc
  cases hh : (repo.take 25).head? with
  | none => simp [handleSensor, hh] at hc
  | some latest =>
    cases st with
    | none => simp [handleSensor, hh] at hc
    | some s =>
      simp only [handleSensor, hh] at hc
      cases hfi : (repo.take 25).findIdx? (fun c => c == s) with
      | some b =>
        rw [hfi] at hc
        simp only [List.mem_filter, List.mem_reverse] at hc
        exact List.take_subset _ _ hc.1
      | none =>
        rw [hfi] at hc
        simp only [List.mem_filter, List.mem_reverse] at hc
        exact hc.1

/-- With no stored hash, the plugin sensor emits no percept. -/
theorem handleSensor_none_emits (risky : Nat → Bool) (repo : List Nat) :
    (handleSensor risky repo none).1 = [] := by
  cases hh : (repo.take 25).head? <;> simp [handleSensor, hh]

/-- On a non-empty repository the stored hash always advances to the
newest commit. -/
theorem handleSensor_advance (risky : Nat → Bool) (hd : Nat) (tl : List Nat)
    (st : Option Nat) :
    (handleSensor risky (hd :: tl) st).2 = some hd := by
  have hh : ((hd :: tl).take 25).head? = some hd := rfl
  cases st with
  | none => simp [handleSensor, hh]
  | some s => simp only [handleSensor, hh]

/-- When the stored hash sits right after a fresh prefix of the inspected
window, the emitted percepts are exactly the risky commits of that prefix
(newest-first reversed to oldest-first). -/
theorem handleSensor_emit_eq (risky : Nat → Bool) (repo : List Nat)
    (s : Nat) (d t' : List Nat) (hrepo : repo.take 25 = d ++ s :: t')
    (hs : s ∉ d) :
    (handleSensor risky repo (some s)).1 = d.reverse.filter risky := by
  have hfi : (repo.take 25).findIdx? (fun c => c == s) = some d.length := by
    rw [hrepo]
    exact findIdx_boundary s d t' hs
  obtain ⟨latest, hlatest⟩ : ∃ a, (repo.take 25).head? = some a := by
    cases hh : (repo.take 25).head? with
    | none =>
      rw [List.head?_eq_none_iff] at hh
      rw [hh] at hrepo
      exact absurd hrepo.symm (List.append_ne_nil_of_right_ne_nil d (by simp))
    | some a => exact ⟨a, rfl⟩
  simp only [handleSensor, hlatest, hfi]
  rw [hrepo, List.take_left]

/-- The execute phase produces exactly one result per planned action. -/
theorem execActions_length (actOf : String → Actuator)
    (dispatch : Action → String) (now : Nat) (as : List Action)
    (st : EvalState) :
    (execActions actOf dispatch now as st).1.length = as.length := by
  induction as generalizing st with
  | nil => simp [execActions]
  | cons a rest ih => simp [execActions, ih]

/-- The result appended for the last planned action is that action's own
submission outcome, taken in the state left by the actions before it. -/
theorem execActions_snoc (actOf : String → Actuator)
    (dispatch : Action → String) (now : Nat) (as : List Action) (a : Action)
    (st : EvalState) :
    execActions actOf dispatch now (as ++ [a]) st =
      ((execActions actOf dispatch now as st).1 ++
        [(submitAction (actOf a.actuator_name) dispatch a now
            (execActions actOf dispatch now as st).2).1],
        (submitAction (actOf a.actuator_name) dispatch a now
            (execActions actOf dispatch now as st).2).2.2) := by
  induction as generalizing st with
  | nil => simp [execActions]
  | cons b rest ih => simp [execActions, ih]

/-- Appending one fresh, well-formed iteration preserves the ledger
invariant. -/
theorem ledgerInv_step (st st' : LoopState) (h : ledgerInv st)
    (nit : Iteration) (hled : st'.ledger = st.ledger ++ [nit])
    (hnext : st'.nextIterationId = st.nextIterationId + 1)
    (hid : nit.id = st.nextIterationId)
    (hlen2 : nit.action_results.length = nit.planned_actions.length) :
    ledgerInv st' := by
  obtain ⟨hpw, hlt, hlen⟩ := h
  refine ⟨?_, ?_, ?_⟩
  · rw [hled, List.pairwise_append]
    refine ⟨hpw, List.pairwise_singleton _ _, ?_⟩
    intro x hx y hy
    simp only [List.mem_singleton] at hy
    subst hy
    rw [hid]
    exact hlt x hx
  · intro it hit
    rw [hled] at hit
    rcases List.mem_append.mp hit with hh | hh
    · rw [hnext]
      exact Nat.lt_succ_of_lt (hlt it hh)
    · simp only [List.mem_singleton] at hh
      subst hh
      rw [hnext, hid]
      exact Nat.lt_succ_self _
  · intro it hit
    rw [hled] at hit
    rcases List.mem_append.mp hit with hh | hh
    · exact hlen it hh
    · simp only [List.mem_singleton] at hh
      subst hh
      exact hlen2

/-! Claim theorems. -/

/-- C5: the iteration ledger keeps one result per planned action at the
same index (the appended result for the last action is its own submission
outcome in the state after the earlier actions), every persisted iteration
keeps ids strictly increasing and below the next fresh id so no two
iterations share an id, and `list_iterations(after_id, limit)` returns
iterations in ascending id order, all with id greater than `after_id`;
consequently the web client's `buildHistoryActions` never produces a
`Pending` row from well-formed iterations. -/
theorem iteration_ledger_shape :
    (∀ (lm : List Percept → List Percept) (fm : List Percept → List Action)
        (actOf : String → Actuator) (dispatch : Action → String) (now : Nat)
        (sensed : List Percept) (st : LoopState),
      ledgerInv st →
      ledgerInv (runIteration lm fm actOf dispatch now sensed st).1) ∧
    (∀ st : LoopState, ledgerInv st → (st.ledger.map Iteration.id).Nodup) ∧
    (∀ (actOf : String → Actuator) (dispatch : Action → String) (now : Nat)
        (as : List Action) (st : EvalState),
      (execActions actOf dispatch now as st).1.length = as.length) ∧
    (∀ (actOf : String → Actuator) (dispatch : Action → String) (now : Nat)
        (as : List Action) (a : Action) (st : EvalState),
      execActions actOf dispatch now (as ++ [a]) st =
        ((execActions actOf dispatch now as st).1 ++
          [(submitAction (actOf a.actuator_name) dispatch a now
              (execActions actOf dispatch now as st).2).1],
          (submitAction (actOf a.actuator_name) dispatch a now
              (execActions actOf dispatch now as st).2).2.2)) ∧
    (∀ (ledger : List Iteration) (after_id limit : Nat),
      ledger.Pairwise (fun i j => i.id < j.id) →
      (list_iterations ledger after_id limit).Pairwise
        (fun i j => i.id < j.id) ∧
      ∀ it ∈ list_iterations ledger after_id limit, after_id < it.id) ∧
    (∀ its : List Iteration,
      (∀ it ∈ its, it.action_results.length = it.planned_actions.length) →
      ∀ item ∈ buildHistoryActions its,
        item.resultKind ≠ ResultKind.Pending) := by
  refine ⟨?_, ?_, ?_, ?_, ?_, ?_⟩
  · intro lm fm actOf dispatch now sensed st h
    by_cases hs : (lm sensed).isEmpty
    · exact ledgerInv_step st _ h ⟨st.nextIterationId, now, sensed, [], [], []⟩
        (by simp [runIteration, hs]) (by simp [runIteration, hs]) rfl rfl
    · exact ledgerInv_step st _ h
        ⟨st.nextIterationId, now, sensed, lm sensed, fm (lm sensed),
          (execActions actOf dispatch now (fm (lm sensed)) st.evalState).1⟩
        (by simp [runIteration, hs]) (by simp [runIteration, hs]) rfl
        (execActions_length actOf dispatch now (fm (lm sensed)) st.evalState)
  · intro st h
    exact List.pairwise_map.mpr (h.1.imp Nat.ne_of_lt)
  · exact execActions_length
  · exact execActions_snoc
  · intro ledger after_id limit h
    constructor
    · exact List.Pairwise.sublist
        ((List.take_sublist _ _).trans (List.filter_sublist _)) h
    · intro it hit
      have hf := List.take_subset _ _ hit
      have hm := List.mem_filter.mp hf
      exact of_decide_eq_true hm.2
  · intro its h item hmem
    simp only [buildHistoryActions, List.mem_flatMap] at hmem
    obtain ⟨it, hit, hitem⟩ := hmem
    simp only [List.mem_map] at hitem
    obtain ⟨pair, hpair, heq⟩ := hitem
    have hidx : it.planned_actions[pair.1]? = some pair.2 :=
      List.mem_enum_iff_getElem?.mp hpair
    have hlt : pair.1 < it.planned_actions.length := by
      by_contra hge
      rw [List.getElem?_eq_none (Nat.le_of_not_lt hge)] at hidx
      cases hidx
    have hlt' : pair.1 < it.action_results.length := by
      rw [h it hit]
      exact hlt
    subst heq
    show (actionResultDetails it.action_results[pair.1]?).1 ≠ ResultKind.Pending
    rw [List.getElem?_eq_getElem hlt']
    cases it.action_results[pair.1] <;> simp [actionResultDetails]

/-- C5 witness: the invariant, ordering, and no-pending facts applied to a
concrete one-iteration run and a concrete two-entry ledger. -/
theorem iteration_ledger_shape_witness :
    ledgerInv (runIteration (fun ps => ps) (fun _ => [⟨"desktop", "notify"⟩])
      (fun n => ⟨n, ⟨none, none, none, false, false⟩⟩) (fun _ => "ok") 11
      [⟨"inbox", "mail", 1⟩] ⟨0, [], 0, EvalState.init 0⟩).1 ∧
    ((list_iterations [⟨1, 5, [], [], [], []⟩, ⟨2, 6, [], [], [], []⟩] 1
        10).Pairwise (fun i j => i.id < j.id) ∧
      ∀ it ∈ list_iterations [⟨1, 5, [], [], [], []⟩, ⟨2, 6, [], [], [], []⟩]
        1 10, 1 < it.id) ∧
    (∀ item ∈ buildHistoryActions
        [⟨3, 7, [], [], [⟨"desktop", "notify"⟩],
          [ActionResult.Executed "done"]⟩],
      item.resultKind ≠ ResultKind.Pending) :=
  ⟨iteration_ledger_shape.1 _ _ _ _ 11 _ ⟨0, [], 0, EvalState.init 0⟩
      (by simp [ledgerInv]),
    iteration_ledger_shape.2.2.2.2.1 _ 1 10 (by simp),
    iteration_ledger_shape.2.2.2.2.2 _ (by simp)⟩

/-- C7: for every sequence of enqueues interleaved with drains, a percept
enqueued after the drain of iteration N (the drain numbered by the drains
that ran before it) is absent from iteration N's window and present in
iteration N+1's window. -/
theorem window_isolation (pre mid post : List QueueOp) (p : Percept)
    (hpre : QueueOp.enq p ∉ pre) (hmid : QueueOp.enq p ∈ mid)
    (hnd : QueueOp.drain ∉ mid) :
    ∃ wN wN1,
      (runQueue PerceptQueue.empty
          (pre ++ QueueOp.drain :: (mid ++ QueueOp.drain :: post))).1[
            pre.count QueueOp.drain]? = some wN ∧
      (runQueue PerceptQueue.empty
          (pre ++ QueueOp.drain :: (mid ++ QueueOp.drain :: post))).1[
            pre.count QueueOp.drain + 1]? = some wN1 ∧
      p ∉ wN ∧ p ∈ wN1 := by
  have houts : (runQueue PerceptQueue.empty
      (pre ++ QueueOp.drain :: (mid ++ QueueOp.drain :: post))).1 =
      (runQueue PerceptQueue.empty pre).1 ++
        (runQueue (runQueue PerceptQueue.empty pre).2
          (QueueOp.drain :: (mid ++ QueueOp.drain :: post))).1 := by
    rw [runQueue_append]
  have hmid' : runQueue
      (⟨(runQueue PerceptQueue.empty pre).2.items,
        (runQueue PerceptQueue.empty pre).2.items.length⟩ : PerceptQueue) mid =
      ([], ⟨(runQueue PerceptQueue.empty pre).2.items ++ enqueuedList mid,
        (runQueue PerceptQueue.empty pre).2.items.length⟩) :=
    runQueue_no_drain mid _ hnd
  have hdrain : (runQueue (runQueue PerceptQueue.empty pre).2
      (QueueOp.drain :: (mid ++ QueueOp.drain :: post))).1 =
      ((runQueue PerceptQueue.empty pre).2.items.drop
        (runQueue PerceptQueue.empty pre).2.cursor) ::
      enqueuedList mid ::
      (runQueue (drain_window
        ⟨(runQueue PerceptQueue.empty pre).2.items ++ enqueuedList mid,
          (runQueue PerceptQueue.empty pre).2.items.length⟩).2 post).1 := by
    simp only [runQueue, drain_window]
    rw [runQueue_append, hmid']
    simp [runQueue, drain_window, List.drop_left]
  have hn : (runQueue PerceptQueue.empty pre).1.length =
      pre.count QueueOp.drain := runQueue_length pre _
  refine ⟨(runQueue PerceptQueue.empty pre).2.items.drop
      (runQueue PerceptQueue.empty pre).2.cursor, enqueuedList mid, ?_, ?_, ?_, ?_⟩
  · rw [houts, hdrain,
      List.getElem?_append_right (le_of_eq hn)]
    rw [hn]
    simp
  · rw [houts, hdrain,
      List.getElem?_append_right (by omega : (runQueue PerceptQueue.empty pre).1.length ≤ pre.count QueueOp.drain + 1)]
    rw [hn]
    simp
  · intro hp
    have hitems : p ∈ (runQueue PerceptQueue.empty pre).2.items :=
      List.drop_subset _ _ hp
    rw [runQueue_items] at hitems
    simp only [PerceptQueue.empty, List.nil_append] at hitems
    exact hpre ((mem_enqueuedList p pre).mp hitems)
  · exact (mem_enqueuedList p mid).mpr hmid

/-- C7 witness: with one percept enqueued before the first drain and one
after it, the second percept misses window 0 and lands in window 1. -/
theorem window_isolation_witness :
    ∃ wN wN1,
      (runQueue PerceptQueue.empty
          ([QueueOp.enq ⟨"inbox", "old", 0⟩] ++ QueueOp.drain ::
            ([QueueOp.enq ⟨"inbox", "late", 1⟩] ++ QueueOp.drain :: []))).1[
            List.count QueueOp.drain [QueueOp.enq ⟨"inbox", "old", 0⟩]]? =
          some wN ∧
      (runQueue PerceptQueue.empty
          ([QueueOp.enq ⟨"inbox", "old", 0⟩] ++ QueueOp.drain ::
            ([QueueOp.enq ⟨"inbox", "late", 1⟩] ++ QueueOp.drain :: []))).1[
            List.count QueueOp.drain [QueueOp.enq ⟨"inbox", "old", 0⟩] + 1]? =
          some wN1 ∧
      (⟨"inbox", "late", 1⟩ : Percept) ∉ wN ∧
      (⟨"inbox", "late", 1⟩ : Percept) ∈ wN1 :=
  window_isolation [QueueOp.enq ⟨"inbox", "old", 0⟩]
    [QueueOp.enq ⟨"inbox", "late", 1⟩] [] ⟨"inbox", "late", 1⟩
    (by simp) (by simp) (by simp)

/-- C9: every numeric input to the sensor form's sensitivity field is
clamped into the closed range 0 to 100 before being stored and submitted
as `sensitivity_score`, and non-numeric input maps to 0. -/
theorem sensitivity_bounds :
    (∀ raw : Option Int,
      0 ≤ sensitivityInput raw ∧ sensitivityInput raw ≤ 100) ∧
    sensitivityInput none = 0 := by
  constructor
  · intro raw
    refine ⟨le_max_left _ _, ?_⟩
    exact max_le (by norm_num) (min_le_left _ _)
  · rfl

/-- C8: an actuator create or update submitted through the web client with
a rate limit enabled always carries `rate_limit.max ≥ 1`: the form input
handler clamps every entered value to at least 1, a max of 0 or less is
rejected by `save` with an error, and the submitted value is clamped with
`Math.max(1, _)`. -/
theorem rate_limit_max_positive :
    (∀ raw : Option Int, 1 ≤ rateLimitMaxInput raw) ∧
    (∀ (enabled : Bool) (m : Int) (per : Period) (cfg : WebRateLimit),
      createActuatorRateLimit enabled m per = Except.ok (some cfg) →
      1 ≤ cfg.max) ∧
    (∀ (m : Int) (per : Period), m ≤ 0 →
      createActuatorRateLimit true m per =
        Except.error "Rate limit max must be greater than 0.") ∧
    (∀ (enabled : Bool) (m : Int) (per : Period) (cfg : WebRateLimit),
      updateActuatorRateLimit enabled m per = Except.ok (some cfg) →
      1 ≤ cfg.max) ∧
    (∀ (m : Int) (per : Period), m ≤ 0 →
      updateActuatorRateLimit true m per =
        Except.error "Rate limit max must be greater than 0.") := by
  refine ⟨fun raw => le_max_left _ _, ?_, ?_, ?_, ?_⟩
  · intro enabled m per cfg h
    cases enabled with
    | false => simp [createActuatorRateLimit] at h
    | true =>
      by_cases hm : m ≤ 0
      · simp [createActuatorRateLimit, hm] at h
      · simp [createActuatorRateLimit, hm] at h
        obtain ⟨cmax, cper⟩ := cfg
        simp [WebRateLimit.mk.injEq] at h
        obtain ⟨h1, -⟩ := h
        simp [← h1]
  · intro m per hm
    simp [createActuatorRateLimit, hm]
  · intro enabled m per cfg h
    cases enabled with
    | false => simp [updateActuatorRateLimit] at h
    | true =>
      by_cases hm : m ≤ 0
      · simp [updateActuatorRateLimit, hm] at h
      · simp [updateActuatorRateLimit, hm] at h
        obtain ⟨cmax, cper⟩ := cfg
        simp [WebRateLimit.mk.injEq] at h
        obtain ⟨h1, -⟩ := h
        simp [← h1]
  · intro m per hm
    simp [updateActuatorRateLimit, hm]

/-- C8 witness: a zero max with the rate limit enabled is rejected on both
create and update, and a concrete accepted submission carries max 4 ≥ 1. -/
theorem rate_limit_max_positive_witness :
    1 ≤ rateLimitMaxInput (some (-5)) ∧
    (1 : Int) ≤ (⟨4, Period.day⟩ : WebRateLimit).max ∧
    createActuatorRateLimit true 0 Period.hour =
      Except.error "Rate limit max must be greater than 0." ∧
    (1 : Int) ≤ (⟨4, Period.week⟩ : WebRateLimit).max ∧
    updateActuatorRateLimit true (-3) Period.minute =
      Except.error "Rate limit max must be greater than 0." :=
  ⟨rate_limit_max_positive.1 (some (-5)),
    rate_limit_max_positive.2.1 true 4 Period.day ⟨4, Period.day⟩
      (by simp [createActuatorRateLimit]),
    rate_limit_max_positive.2.2.1 0 Period.hour (by norm_num),
    rate_limit_max_positive.2.2.2.1 true 4 Period.week ⟨4, Period.week⟩
      (by simp [updateActuatorRateLimit]),
    rate_limit_max_positive.2.2.2.2 (-3) Period.minute (by norm_num)⟩

/-- C3: an action whose Policy Evaluator verdict is `Deny(reason)` never
reaches the actuator — the executor performs zero external calls, the
recorded result is exactly `Denied{reason}`, and the evaluation state is
left untouched. -/
theorem denial_side_effect_free (act : Actuator) (dispatch : Action → String)
    (a : Action) (now : Nat) (st : EvalState) (reason : String)
    (h : (evaluate act a now st).1 = Verdict.Deny reason) :
    (submitAction act dispatch a now st).1 = ActionResult.Denied reason ∧
    (submitAction act dispatch a now st).2.1 = 0 ∧
    (submitAction act dispatch a now st).2.2 = st := by
  refine ⟨?_, ?_, ?_⟩ <;> simp [submitAction, h, execute, evaluate_deny_state act a now st reason h]

/-- C3 witness: a concrete denylisted action is recorded as denied with no
external call. -/
theorem denial_side_effect_free_witness :
    (submitAction ⟨"sh", ⟨none, some ["rm"], none, false, false⟩⟩
        (fun _ => "out") ⟨"sh", "rm"⟩ 5 (EvalState.init 0)).1 =
      ActionResult.Denied "denylisted" ∧
    (submitAction ⟨"sh", ⟨none, some ["rm"], none, false, false⟩⟩
        (fun _ => "out") ⟨"sh", "rm"⟩ 5 (EvalState.init 0)).2.1 = 0 ∧
    (submitAction ⟨"sh", ⟨none, some ["rm"], none, false, false⟩⟩
        (fun _ => "out") ⟨"sh", "rm"⟩ 5 (EvalState.init 0)).2.2 =
      EvalState.init 0 :=
  denial_side_effect_free _ _ _ _ _ _ (by simp [evaluate, allowlistBlocks, denylistBlocks])

/-- C2: the Policy Evaluator applies its rules in the fixed order allowlist
then denylist then rate-limit then HITL: an action missing from a
configured allowlist is denied with "not allowlisted" and the state is
untouched, and an action on the denylist (once the allowlist does not
reject it) is denied with "denylisted" before any rate-limit or HITL step
runs — the rate-limit window and approval store are unchanged. -/
theorem policy_order :
    (∀ (act : Actuator) (a : Action) (now : Nat) (st : EvalState)
        (l : List String),
      act.policy.allowlist = some l → a.tool ∉ l →
      evaluate act a now st = (Verdict.Deny "not allowlisted", st)) ∧
    (∀ (act : Actuator) (a : Action) (now : Nat) (st : EvalState)
        (l : List String),
      (∀ al, act.policy.allowlist = some al → a.tool ∈ al) →
      act.policy.denylist = some l → a.tool ∈ l →
      evaluate act a now st = (Verdict.Deny "denylisted", st)) := by
  constructor
  · intro act a now st l hal hmem
    have hb : allowlistBlocks act.policy a = true := by
      simp [allowlistBlocks, hal, List.contains, hmem]
    simp [evaluate, hb]
  · intro act a now st l hallow hd hmem
    have hb : allowlistBlocks act.policy a = false := by
      unfold allowlistBlocks
      cases hcase : act.policy.allowlist with
      | none => rfl
      | some al => simp [List.contains, hallow al hcase]
    have hdb : denylistBlocks act.policy a = true := by
      simp [denylistBlocks, hd, List.contains, hmem]
    simp [evaluate, hb, hdb]

/-- C2 witness: a concrete actuator with denylist `["rm"]` denies an `rm`
action with the denylist reason and unchanged state, and a concrete
allowlist miss denies with the allowlist reason. -/
theorem policy_order_witness :
    evaluate ⟨"sh", ⟨none, some ["rm"], some ⟨2, Period.hour⟩, true, false⟩⟩
        ⟨"sh", "rm"⟩ 3 (EvalState.init 0) =
      (Verdict.Deny "denylisted", EvalState.init 0) ∧
    evaluate ⟨"sh", ⟨some ["ls"], none, none, false, false⟩⟩
        ⟨"sh", "rm"⟩ 3 (EvalState.init 0) =
      (Verdict.Deny "not allowlisted", EvalState.init 0) :=
  ⟨policy_order.2 _ _ _ _ ["rm"] (by intro al h; cases h) rfl (by simp),
   policy_order.1 _ _ _ _ ["ls"] rfl (by simp)⟩

/-- C1: with a `max=2, per=hour` rate limit and three actions submitted to
the Policy Evaluator within one window, the first two receive Admit or
Hold verdicts, the third is denied with "rate limit exceeded", the denied
check performs no increment, and across any single evaluation the window
count never exceeds the configured maximum. -/
theorem rate_limit_exactness (nm : String) (hitl sb : Bool)
    (a1 a2 a3 : Action) (t0 t1 t2 t3 : Nat)
    (ht1 : t1 < t0 + 3600) (ht2 : t2 < t0 + 3600) (ht3 : t3 < t0 + 3600) :
    ((rlStep1 nm hitl sb a1 t0 t1).1.ok = true ∧
     (rlStep2 nm hitl sb a1 a2 t0 t1 t2).1.ok = true ∧
     (rlStep3 nm hitl sb a1 a2 a3 t0 t1 t2 t3).1 =
       Verdict.Deny "rate limit exceeded") ∧
    (((rlStep1 nm hitl sb a1 t0 t1).2.windows nm).count = 1 ∧
     ((rlStep2 nm hitl sb a1 a2 t0 t1 t2).2.windows nm).count = 2 ∧
     ((rlStep3 nm hitl sb a1 a2 a3 t0 t1 t2 t3).2.windows nm).count = 2) ∧
    (∀ (act : Actuator) (a : Action) (now : Nat) (st : EvalState)
        (rl : RateLimitCfg),
      act.policy.rate_limit = some rl →
      (st.windows act.name).count ≤ rl.max →
      ((evaluate act a now st).2.windows act.name).count ≤ rl.max) := by
  have hpol : (rlActuator nm hitl sb).policy =
      ⟨none, none, some ⟨2, Period.hour⟩, hitl, sb⟩ := rfl
  have hname : (rlActuator nm hitl sb).name = nm := rfl
  obtain ⟨ok1, hwin1⟩ :=
    evaluate_rl_pass (rlActuator nm hitl sb) ⟨2, Period.hour⟩ hitl sb hpol
      a1 t1 (EvalState.init t0)
      (show ¬ (t0 + 3600 ≤ t1) by omega) (show (0 : Nat) < 2 by norm_num)
  have hw1 : (rlStep1 nm hitl sb a1 t0 t1).2.windows nm = ⟨t0, 1⟩ := by
    show (evaluate (rlActuator nm hitl sb) a1 t1 (EvalState.init t0)).2.windows nm
        = ⟨t0, 1⟩
    rw [hwin1, hname, Function.update_same]
    rfl
  obtain ⟨ok2, hwin2⟩ :=
    evaluate_rl_pass (rlActuator nm hitl sb) ⟨2, Period.hour⟩ hitl sb hpol
      a2 t2 (rlStep1 nm hitl sb a1 t0 t1).2
      (by rw [hname, hw1]; show ¬ (t0 + 3600 ≤ t2); omega)
      (by rw [hname, hw1]; show (1 : Nat) < 2; norm_num)
  have hw2 : (rlStep2 nm hitl sb a1 a2 t0 t1 t2).2.windows nm = ⟨t0, 2⟩ := by
    show (evaluate (rlActuator nm hitl sb) a2 t2
        (rlStep1 nm hitl sb a1 t0 t1).2).2.windows nm = ⟨t0, 2⟩
    rw [hwin2, hname, Function.update_same, hw1]
  have p3 :=
    evaluate_rl_deny (rlActuator nm hitl sb) ⟨2, Period.hour⟩ hitl sb hpol
      a3 t3 (rlStep2 nm hitl sb a1 a2 t0 t1 t2).2
      (by rw [hname, hw2]; show ¬ (t0 + 3600 ≤ t3); omega)
      (by rw [hname, hw2])
  refine ⟨⟨ok1, ok2, ?_⟩, ⟨?_, ?_, ?_⟩, ?_⟩
  · show (evaluate (rlActuator nm hitl sb) a3 t3
        (rlStep2 nm hitl sb a1 a2 t0 t1 t2).2).1 = Verdict.Deny "rate limit exceeded"
    rw [p3]
  · rw [hw1]
  · rw [hw2]
  · show ((evaluate (rlActuator nm hitl sb) a3 t3
        (rlStep2 nm hitl sb a1 a2 t0 t1 t2).2).2.windows nm).count = 2
    rw [p3]
    show ((rlStep2 nm hitl sb a1 a2 t0 t1 t2).2.windows nm).count = 2
    rw [hw2]
  · intro act a now st rl hrl hle
    exact evaluate_count_le act a now st rl hrl hle

/-- C1 witness: three concrete notify actions within one hour against a
`max=2` actuator — the first two pass, the third is denied at count 2. -/
theorem rate_limit_exactness_witness :
    ((rlStep1 "desktop" false false ⟨"desktop", "notify"⟩ 100 100).1.ok = true ∧
     (rlStep2 "desktop" false false ⟨"desktop", "notify"⟩ ⟨"desktop", "notify"⟩
        100 100 200).1.ok = true ∧
     (rlStep3 "desktop" false false ⟨"desktop", "notify"⟩ ⟨"desktop", "notify"⟩
        ⟨"desktop", "notify"⟩ 100 100 200 300).1 =
       Verdict.Deny "rate limit exceeded") ∧
    (((rlStep1 "desktop" false false ⟨"desktop", "notify"⟩ 100 100).2.windows
        "desktop").count = 1 ∧
     ((rlStep2 "desktop" false false ⟨"desktop", "notify"⟩ ⟨"desktop", "notify"⟩
        100 100 200).2.windows "desktop").count = 2 ∧
     ((rlStep3 "desktop" false false ⟨"desktop", "notify"⟩ ⟨"desktop", "notify"⟩
        ⟨"desktop", "notify"⟩ 100 100 200 300).2.windows "desktop").count = 2) ∧
    (∀ (act : Actuator) (a : Action) (now : Nat) (st : EvalState)
        (rl : RateLimitCfg),
      act.policy.rate_limit = some rl →
      (st.windows act.name).count ≤ rl.max →
      ((evaluate act a now st).2.windows act.name).count ≤ rl.max) :=
  rate_limit_exactness "desktop" false false _ _ _ 100 100 200 300
    (by norm_num) (by norm_num) (by norm_num)

/-- C4: an `ApprovalRequest` is resolved at most once — after a first
`approve`/`deny` succeeds, the request's stored status is the first
decision, and every second `approve`/`deny` call on the same id fails with
an explicit error (producing no new store, hence leaving the status
unchanged). -/
theorem hitl_terminality (approvals out : List ApprovalRequest) (aid : Nat)
    (d1 : Bool) (h : resolveApproval approvals aid d1 = Except.ok out) :
    statusOf out aid =
      some (if d1 then ApprovalStatus.Approved else ApprovalStatus.Denied) ∧
    ∀ d2 : Bool,
      resolveApproval out aid d2 = Except.error "approval already resolved" := by
  unfold resolveApproval at h
  cases hf : approvals.find? (fun r => r.id == aid) with
  | none => rw [hf] at h; exact absurd h (by simp)
  | some r =>
    rw [hf] at h
    dsimp only at h
    cases hs : r.status with
    | Approved => rw [hs] at h; simp at h
    | Denied => rw [hs] at h; simp at h
    | Pending =>
      rw [hs] at h
      simp only [Except.ok.injEq] at h
      have hbeq : (r.id == aid) = true :=
        List.find?_some (p := fun q : ApprovalRequest => q.id == aid) hf
      have hcomp :
          ((fun q : ApprovalRequest => q.id == aid) ∘ fun q =>
            if q.id == aid then
              { q with status := if d1 then ApprovalStatus.Approved
                                 else ApprovalStatus.Denied }
            else q) = fun q : ApprovalRequest => q.id == aid := by
        funext q
        by_cases hq : (q.id == aid) = true <;> simp [Function.comp, hq]
      have hfind : out.find? (fun q => q.id == aid) =
          some { r with status := if d1 then ApprovalStatus.Approved
                                  else ApprovalStatus.Denied } := by
        rw [← h, List.find?_map, hcomp, hf]
        simp [hbeq]
        intro hn
        exact absurd (eq_of_beq hbeq) hn
      constructor
      · simp [statusOf, hfind]
      · intro d2
        unfold resolveApproval
        rw [hfind]
        cases d1 <;> simp

/-- C4 witness: a concrete pending request approved once reports status
`Approved`, and a second denial attempt on the same id fails with the
explicit error. -/
theorem hitl_terminality_witness :
    statusOf [⟨7, "rm", ApprovalStatus.Approved, 3⟩] 7 =
      some (if true then ApprovalStatus.Approved else ApprovalStatus.Denied) ∧
    ∀ d2 : Bool,
      resolveApproval [⟨7, "rm", ApprovalStatus.Approved, 3⟩] 7 d2 =
        Except.error "approval already resolved" :=
  hitl_terminality [⟨7, "rm", ApprovalStatus.Pending, 3⟩]
    [⟨7, "rm", ApprovalStatus.Approved, 3⟩] 7 true
    (by simp [resolveApproval, List.find?])

/-- C6: when the local model returns an empty surprise set, the iteration
takes the terminal early exit — the frontier model is invoked zero times,
`frontier_loop_count` is unchanged, and the persisted iteration carries no
planned action and no result. -/
theorem early_exit (lm : List Percept → List Percept)
    (fm : List Percept → List Action) (actOf : String → Actuator)
    (dispatch : Action → String) (now : Nat) (sensed : List Percept)
    (st : LoopState) (h : lm sensed = []) :
    (runIteration lm fm actOf dispatch now sensed st).2 = 0 ∧
    (runIteration lm fm actOf dispatch now sensed st).1.frontier_loop_count =
      st.frontier_loop_count ∧
    (runIteration lm fm actOf dispatch now sensed st).1.ledger =
      st.ledger ++ [⟨st.nextIterationId, now, sensed, [], [], []⟩] := by
  refine ⟨?_, ?_, ?_⟩ <;> simp [runIteration, h]

/-- C6 witness: a concrete run with an always-unsurprised local model makes
no frontier call and plans no action. -/
theorem early_exit_witness :
    (runIteration (fun _ => []) (fun _ => [⟨"sh", "rm"⟩])
        (fun n => ⟨n, ⟨none, none, none, false, false⟩⟩) (fun _ => "out") 7
        [⟨"inbox", "mail", 1⟩] ⟨4, [], 9, EvalState.init 0⟩).2 = 0 ∧
    (runIteration (fun _ => []) (fun _ => [⟨"sh", "rm"⟩])
        (fun n => ⟨n, ⟨none, none, none, false, false⟩⟩) (fun _ => "out") 7
        [⟨"inbox", "mail", 1⟩] ⟨4, [], 9, EvalState.init 0⟩).1.frontier_loop_count = 9 ∧
    (runIteration (fun _ => []) (fun _ => [⟨"sh", "rm"⟩])
        (fun n => ⟨n, ⟨none, none, none, false, false⟩⟩) (fun _ => "out") 7
        [⟨"inbox", "mail", 1⟩] ⟨4, [], 9, EvalState.init 0⟩).1.ledger =
      [⟨4, 7, [⟨"inbox", "mail", 1⟩], [], [], []⟩] :=
  early_exit _ _ _ _ _ _ _ rfl

/-- C10: the git-commit-guard sensor's freshness cursor — the first
invocation (no stored hash) emits nothing and just records the newest
commit; on a non-empty repository the stored hash always advances to the
newest commit; every emitted percept comes from the repository; percepts
are emitted only for commits strictly newer than the stored hash (the
prefix before it); and over a growing commit list a commit emitted once is
never emitted by the next invocation. -/
theorem plugin_sensor_freshness :
    (∀ (risky : Nat → Bool) (repo : List Nat),
      (handleSensor risky repo none).1 = [] ∧
      ∀ (hd : Nat) (tl : List Nat), repo = hd :: tl →
        (handleSensor risky repo none).2 = some hd) ∧
    (∀ (risky : Nat → Bool) (hd : Nat) (tl : List Nat) (st : Option Nat),
      (handleSensor risky (hd :: tl) st).2 = some hd) ∧
    (∀ (risky : Nat → Bool) (repo : List Nat) (st : Option Nat),
      ∀ c ∈ (handleSensor risky repo st).1, c ∈ repo) ∧
    (∀ (risky : Nat → Bool) (d t : List Nat) (s : Nat),
      (d ++ s :: t).Nodup →
      ∀ c ∈ (handleSensor risky (d ++ s :: t) (some s)).1, c ∈ d) ∧
    (∀ (risky : Nat → Bool) (d : List Nat) (hd : Nat) (tl : List Nat)
        (st : Option Nat) (c : Nat),
      (d ++ hd :: tl).Nodup →
      c ∈ (handleSensor risky (hd :: tl) st).1 →
      c ∉ (handleSensor risky (d ++ hd :: tl)
            ((handleSensor risky (hd :: tl) st).2)).1) := by
  have fresh_sub : ∀ (risky : Nat → Bool) (d t : List Nat) (s : Nat),
      (d ++ s :: t).Nodup →
      ∀ c ∈ (handleSensor risky (d ++ s :: t) (some s)).1, c ∈ d := by
    intro risky d t s hnd c hc
    by_cases hlen : 25 ≤ d.length
    · have hsub := handleSensor_emit_sub risky (d ++ s :: t) (some s) c hc
      rw [List.take_append_eq_append_take, Nat.sub_eq_zero_of_le hlen] at hsub
      simp only [List.take_zero, List.append_nil] at hsub
      exact List.take_subset _ _ hsub
    · push_neg at hlen
      obtain ⟨k, hk⟩ : ∃ k, 25 - d.length = k + 1 := ⟨24 - d.length, by omega⟩
      have hs' : s ∉ d := by
        have hnd' := List.nodup_append.mp hnd
        exact fun hmem => hnd'.2.2 hmem (List.mem_cons_self s t)
      have hcommits : (d ++ s :: t).take 25 = d ++ s :: t.take k := by
        rw [List.take_append_eq_append_take,
          List.take_of_length_le (Nat.le_of_lt hlen), hk, List.take_succ_cons]
      rw [handleSensor_emit_eq risky _ s d (t.take k) hcommits hs'] at hc
      simp only [List.mem_filter, List.mem_reverse] at hc
      exact hc.1
  refine ⟨?_, ?_, ?_, fresh_sub, ?_⟩
  · intro risky repo
    refine ⟨handleSensor_none_emits risky repo, ?_⟩
    intro hd tl hrepo
    subst hrepo
    exact handleSensor_advance risky hd tl none
  · intro risky hd tl st
    exact handleSensor_advance risky hd tl st
  · intro risky repo st c hc
    exact List.take_subset _ _ (handleSensor_emit_sub risky repo st c hc)
  · intro risky d hd tl st c hnd hc1
    rw [handleSensor_advance risky hd tl st]
    intro hc2
    have hcd : c ∈ d := fresh_sub risky d tl hd hnd c hc2
    have hc1' : c ∈ hd :: tl :=
      List.take_subset _ _ (handleSensor_emit_sub risky (hd :: tl) st c hc1)
    exact (List.nodup_append.mp hnd).2.2 hcd hc1'

/-- C10 witness: a concrete run — baseline invocation emits nothing, the
cursor advances to the newest hash, a later invocation over a grown
history emits only the new commit, and a commit emitted once is not
emitted again. -/
theorem plugin_sensor_freshness_witness :
    ((handleSensor (fun _ => true) [5, 3] none).1 = [] ∧
      (handleSensor (fun _ => true) [5, 3] none).2 = some 5) ∧
    (handleSensor (fun _ => true) (5 :: [3]) (some 3)).2 = some 5 ∧
    (∀ c ∈ (handleSensor (fun _ => true) [5, 3] (some 3)).1, c ∈ [5, 3]) ∧
    (∀ c ∈ (handleSensor (fun _ => true) ([9] ++ 5 :: [3]) (some 5)).1,
      c ∈ [9]) ∧
    5 ∉ (handleSensor (fun _ => true) ([9] ++ 5 :: [3])
          ((handleSensor (fun _ => true) (5 :: [3]) (some 3)).2)).1 :=
  ⟨⟨(plugin_sensor_freshness.1 (fun _ => true) [5, 3]).1,
      (plugin_sensor_freshness.1 (fun _ => true) [5, 3]).2 5 [3] rfl⟩,
    plugin_sensor_freshness.2.1 (fun _ => true) 5 [3] (some 3),
    plugin_sensor_freshness.2.2.1 (fun _ => true) [5, 3] (some 3),
    plugin_sensor_freshness.2.2.2.1 (fun _ => true) [9] [3] 5 (by decide),
    plugin_sensor_freshness.2.2.2.2 (fun _ => true) [9] 5 [3] (some 3) 5
      (by decide) (by decide)⟩

end Looper
